import Mathlib

/-!
Shallow embedding of the food-itinerary places backend (a Google Places
Nearby Search proxy) and proofs about its aggregation-and-ranking engine.

The embedded code is the rich serverless handler in `src/api/places.js`
(second document: popularity scoring, cuisine-group expansion, in-memory
TTL cache, fan-out with merge/dedup) together with the thin proxy
variants in `src/server.mjs` and `src/places.js`, which share the
parameter-parsing lines relevant here.

Modelling conventions:
* JS numbers produced by `parseFloat` / `parseInt` / `Number` are modelled
  as `Option ℚ` / `Option ℤ`, with `none` standing for `NaN`.
* `x || d` on a parsed number yields `d` when `x` is `NaN` or `0` (both
  falsy in JS); this is `jsOrQ` / `jsOrZ` below.
* The scorer uses real arithmetic (`Real.log` for `Math.log1p`); the sort
  comparator and all bound checks use exact rational arithmetic.
* Strings are Lean `String`s; the comma split and trim of the `cuisines`
  parameter are implemented structurally over the character list.
-/

namespace FoodItinerary

/-- Discovery mode: `"famous"` biases ranking toward popularity, anything
else is treated as `"balanced"` (src/api/places.js line 250). -/
inductive Mode where
  | balanced
  | famous
deriving DecidableEq, Repr

/-- A JS float as produced by `parseFloat` / `Number`: `none` is `NaN`. -/
abbrev JSNum := Option ℚ

/-- A JS integer as produced by `parseInt`: `none` is `NaN`. -/
abbrev JSInt := Option ℤ

/-- `x || d` for a parsed JS float: `NaN` and `0` are falsy and fall back
to the default `d`. -/
def jsOrQ (v : JSNum) (d : ℚ) : ℚ :=
  match v with
  | none => d
  | some x => if x = 0 then d else x

/-- `x || d` for a parsed JS integer: `NaN` and `0` are falsy and fall
back to the default `d`. -/
def jsOrZ (v : JSInt) (d : ℤ) : ℤ :=
  match v with
  | none => d
  | some x => if x = 0 then d else x

/-- `clamp(n, lo, hi) = Math.max(lo, Math.min(hi, n))`
(src/api/places.js line 141). -/
def clamp (n lo hi : ℚ) : ℚ := max lo (min hi n)

/-- `clamp` at integer type, for the `parseInt`-produced `maxResults`. -/
def clampZ (n lo hi : ℤ) : ℤ := max lo (min hi n)

namespace Api

/-- `const radius = clamp(parseFloat(radiusKm) || 5, 1, 20)`
(src/api/places.js line 245).  The argument is the `parseFloat` result;
a missing query parameter parses its destructuring default `"5"` and so
arrives here as `some 5`. -/
def radius (radiusKmParsed : JSNum) : ℚ := clamp (jsOrQ radiusKmParsed 5) 1 20

/-- `const max = clamp(parseInt(maxResults, 10) || 12, 1, 20)`
(src/api/places.js line 246).  The argument is the `parseInt` result;
a missing parameter parses its default `"12"` and arrives as `some 12`. -/
def maxRes (maxResultsParsed : JSInt) : ℤ := clampZ (jsOrZ maxResultsParsed 12) 1 20

end Api

namespace Server

/-- `Math.min(Math.max(parseFloat(req.query.radiusKm) || 5, 1), 20)`
(src/server.mjs line 33; the same line appears in both thin handlers of
src/places.js). -/
def radiusKm (p : JSNum) : ℚ := min (max (jsOrQ p 5) 1) 20

/-- `Math.min(parseInt(req.query.maxResults || "12", 10), 20)`
(src/server.mjs line 34; identical in src/places.js lines 37 and 101).
The outer `Option` is the query parameter itself: `none` means the
parameter is missing or empty (a falsy string, replaced by `"12"` before
parsing); `some p` means it is present and `p` is its `parseInt` result.
`Math.min(NaN, 20)` is `NaN`, so a `NaN` parse propagates. -/
def maxResults (raw : Option JSInt) : JSInt :=
  match raw with
  | none => some (min 12 20)
  | some p =>
    match p with
    | none => none
    | some n => some (min n 20)

end Server

/-- Downstream bound check `1 ≤ v ≤ 20` on a possibly-`NaN` integer, the
property the spec asserts for `maxResults` on every path. -/
def withinBounds (v : JSInt) : Bool :=
  match v with
  | some m => decide (1 ≤ m ∧ m ≤ 20)
  | none => false

namespace Api

/-- `CUISINE_GROUPS` (src/api/places.js lines 178–185): umbrella cuisine
tags mapped to their sub-cuisine keyword lists; unknown tags are not in
the table. -/
def CUISINE_GROUPS (c : String) : Option (List String) :=
  if c = "South Indian" then some ["South Indian", "Udupi", "Udipi", "Andhra", "Tamil", "Kerala"]
  else if c = "North Indian" then some ["North Indian", "Punjabi", "Mughlai", "Tandoor", "Dhaba"]
  else if c = "Maharashtrian" then some ["Maharashtrian", "Malvani", "Kolhapuri", "Puneri", "Varhadi", "Khandeshi"]
  else if c = "Street food" then some ["Street food", "Chaat", "Snacks", "Vada pav", "Misal", "Bhel"]
  else if c = "Seafood" then some ["Seafood", "Coastal", "Fish", "Surmai", "Prawn"]
  else if c = "Vegetarian" then some ["Vegetarian", "Pure Veg"]
  else none

/-- `String.prototype.split(",")` over the character list (used at
src/api/places.js line 253).  JS `"".split(",")` is `[""]`, which this
reproduces. -/
def splitCommaAux : List Char → List Char → List String
  | [], cur => [String.mk cur.reverse]
  | c :: rest, cur =>
    if c = ',' then String.mk cur.reverse :: splitCommaAux rest []
    else splitCommaAux rest (c :: cur)

/-- Split a string on commas, JS-style. -/
def splitComma (s : String) : List String := splitCommaAux s.data []

/-- `String.prototype.trim()`: strip leading and trailing whitespace
(src/api/places.js line 254). -/
def trimChars (s : String) : String :=
  String.mk (((s.data.dropWhile Char.isWhitespace).reverse.dropWhile Char.isWhitespace).reverse)

/-- `String(cuisines || "").split(",").map(s => s.trim()).filter(Boolean)`
(src/api/places.js lines 252–255). -/
def rawCuisines (cuisines : String) : List String :=
  ((splitComma cuisines).map trimChars).filter (fun s => s ≠ "")

/-- `keywordSet.add(k)` on a JS `Set`, which keeps insertion order and
drops duplicates (src/api/places.js lines 258–262). -/
def addKeyword (acc : List String) (k : String) : List String :=
  if k ∈ acc then acc else acc ++ [k]

/-- One iteration of the expansion loop over `rawCuisines`: a tag in
`CUISINE_GROUPS` adds all its group members, an unknown tag passes
through as a literal keyword (src/api/places.js lines 259–262). -/
def expandStep (acc : List String) (c : String) : List String :=
  match CUISINE_GROUPS c with
  | some g => g.foldl addKeyword acc
  | none => addKeyword acc c

/-- `const keywords = Array.from(keywordSet)`: the expanded keyword list
in Set insertion order (src/api/places.js lines 258–266). -/
def expandKeywords (cs : List String) : List String := cs.foldl expandStep []

/-- The tokens a single cuisine tag contributes to the keyword set. -/
def tokensOf (c : String) : List String :=
  match CUISINE_GROUPS c with
  | some g => g
  | none => [c]

/-- The canonical cache key (src/api/places.js lines 269–277).

The source computes `JSON.stringify` of a fixed-shape object literal
`{lat, lng, radius, max, keywords, isPureVeg, mode}`; since the field
order is fixed and the field values are strings, numbers, booleans and
arrays of strings, that stringification is injective in the field values,
so the key is modelled as the record of field values itself.  `lat` and
`lng` carry the `latitude.toFixed(5)` / `longitude.toFixed(5)` output. -/
structure CacheKey where
  lat : String
  lng : String
  radius : ℚ
  max : ℤ
  keywords : List String
  isPureVeg : Bool
  mode : Mode
deriving DecidableEq, Repr

/-- The cache key as computed from an already-split cuisine tag list. -/
def cacheKeyOfList (latS lngS : String) (radius : ℚ) (max : ℤ)
    (raw : List String) (isPureVeg : Bool) (mode : Mode) : CacheKey :=
  { lat := latS, lng := lngS, radius := radius, max := max,
    keywords := expandKeywords raw, isPureVeg := isPureVeg, mode := mode }

/-- The cache key as computed from the raw `cuisines` query parameter
(src/api/places.js lines 252–277). -/
def cacheKey (latS lngS : String) (radius : ℚ) (max : ℤ)
    (cuisines : String) (isPureVeg : Bool) (mode : Mode) : CacheKey :=
  cacheKeyOfList latS lngS radius max (rawCuisines cuisines) isPureVeg mode

/-- The query planner (src/api/places.js lines 286–300): each element is
one sub-query's keyword, `none` meaning the broad keywordless call
(`keyword` is left `undefined`). -/
def subQueries (keywords : List String) (isPureVeg : Bool) (mode : Mode) : List (Option String) :=
  if keywords.length ≠ 0 then
    (keywords.take 8).map (fun k =>
      some (if isPureVeg then k ++ " pure veg restaurant" else k ++ " restaurant"))
  else
    [if isPureVeg then some "pure veg restaurant" else none] ++
      (if mode = Mode.famous then
        [some (if isPureVeg then "famous pure veg restaurant" else "famous restaurant")]
      else [])

end Api

/-- `popularityScore` (src/api/places.js lines 161–175).  `Option` fields
model the JS `typeof x === "number"` guards: an absent (or non-numeric)
rating / review count defaults to `0`, an absent distance (no geometry)
defaults to the `999` sentinel.  `Math.log1p(n)` is `Real.log (1 + n)`.
The source's early `return` for famous mode is the `match` below. -/
noncomputable def popularityScore (rating userRatingsTotal distanceKm : Option ℝ)
    (mode : Mode) : ℝ :=
  let r := rating.getD 0
  let n := userRatingsTotal.getD 0
  let pop := r * Real.log (1 + n)
  let d := distanceKm.getD 999
  let distBonus := max 0 (6 - min 6 d)
  match mode with
  | Mode.famous => pop * 1.35 + distBonus * 0.6
  | Mode.balanced => pop * 1.0 + distBonus * 1.1

/-- The score formula exactly as the specification words it (spec §4.5):
`r*ln(1+n)*1.35 + max(0, 6 - min(6, d))*0.6` in famous mode and
`r*ln(1+n)*1.0 + max(0, 6 - min(6, d))*1.1` in balanced mode, for the
already-defaulted `r`, `n`, `d`. -/
noncomputable def specScore (r n d : ℝ) (mode : Mode) : ℝ :=
  match mode with
  | Mode.famous => r * Real.log (1 + n) * 1.35 + max 0 (6 - min 6 d) * 0.6
  | Mode.balanced => r * Real.log (1 + n) * 1.0 + max 0 (6 - min 6 d) * 1.1

/-- A raw venue record as returned by the provider, with the fields the
merge/dedup stage inspects (src/api/places.js lines 326–331): `place_id`
may be absent, and `name`/`rating` stand in for the remaining payload so
that duplicates with differing snapshots are distinguishable. -/
structure RawPlace where
  place_id : Option String
  name : String
  rating : Option ℚ
deriving DecidableEq, Repr

/-- A parsed provider response body: the `status` string and the
(possibly absent) `results` array. -/
structure ProviderBody where
  status : String
  results : Option (List RawPlace)
deriving DecidableEq, Repr

/-- The observable outcome of the `fetch` call inside `fetchNearby`
(src/api/places.js lines 210–211): either the promise rejected
(`threw`: a transport-level failure such as a DNS or connection error),
or a response arrived with `resp.ok`, its HTTP status, its body text and
the result of `JSON.parse` on that text (`none` = unparsable). -/
inductive FetchOutcome where
  | threw
  | got (ok : Bool) (httpStatus : ℤ) (text : String) (parsed : Option ProviderBody)
deriving DecidableEq, Repr

/-- The value `fetchNearby` resolves with (src/api/places.js
lines 212–219): `{ok:false, status, text}` or `{ok:true, json}`. -/
inductive FetchResult where
  | failed (status : ℤ) (text : String)
  | succeeded (json : ProviderBody)
deriving DecidableEq, Repr

/-- `fetchNearby` from the `await fetch` onwards (src/api/places.js
lines 210–219): a rejected fetch propagates (no try/catch in scope until
the handler's top-level one); `!resp.ok` returns the failure record; an
unparsable body returns a 502 failure record; otherwise the parsed json. -/
def fetchNearby : FetchOutcome → Except Unit FetchResult
  | FetchOutcome.threw => Except.error ()
  | FetchOutcome.got ok status text parsed =>
    if ok = false then Except.ok (FetchResult.failed status text)
    else
      match parsed with
      | some json => Except.ok (FetchResult.succeeded json)
      | none => Except.ok (FetchResult.failed 502 text)

/-- `await Promise.all(queries.map(q => fetchNearby(...)))`
(src/api/places.js lines 303–311): resolves with all results, or rejects
as soon as any sub-query's promise rejects (the rejection is then caught
by the handler's top-level catch, producing the 500 error response). -/
def runFetches : List FetchOutcome → Except Unit (List FetchResult)
  | [] => Except.ok []
  | o :: rest =>
    match fetchNearby o, runFetches rest with
    | Except.ok r, Except.ok rs => Except.ok (r :: rs)
    | Except.error e, _ => Except.error e
    | _, Except.error e => Except.error e

/-- One iteration of the merge loop (src/api/places.js lines 314–323):
a failed fetch, a provider status other than `OK`/`ZERO_RESULTS`, or a
missing `results` array contributes nothing; otherwise the results are
appended. -/
def mergeStep (merged : List RawPlace) (r : FetchResult) : List RawPlace :=
  match r with
  | FetchResult.failed _ _ => merged
  | FetchResult.succeeded data =>
    if data.status ≠ "OK" ∧ data.status ≠ "ZERO_RESULTS" then merged
    else
      match data.results with
      | some rs => merged ++ rs
      | none => merged

/-- The full merge loop: `let merged = []; for (const r of fetched) ...`
(src/api/places.js lines 313–323). -/
def mergeFetched (fetched : List FetchResult) : List RawPlace :=
  fetched.foldl mergeStep []

/-- A fetch result that the merge loop skips: a failure record, or a
success whose provider status is neither `OK` nor `ZERO_RESULTS`. -/
def isAbsent (r : FetchResult) : Bool :=
  match r with
  | FetchResult.failed _ _ => true
  | FetchResult.succeeded j => decide (j.status ≠ "OK" ∧ j.status ≠ "ZERO_RESULTS")

/-- The dedup loop with its `seen` id accumulator (src/api/places.js
lines 326–331): a venue without `place_id` is dropped; a venue whose id
was already seen is dropped; otherwise it is kept, in encounter order
(the JS `Map` keeps insertion order and `Array.from(byId.values())`
reads it back in that order). -/
def dedupeAux : List RawPlace → List String → List RawPlace
  | [], _ => []
  | p :: t, seen =>
    match p.place_id with
    | none => dedupeAux t seen
    | some i => if i ∈ seen then dedupeAux t seen else p :: dedupeAux t (i :: seen)

/-- `Array.from(byId.values())` after the dedup loop over `merged`. -/
def dedupeById (l : List RawPlace) : List RawPlace := dedupeAux l []

/-- The id set accumulated by the dedup loop after processing `l`. -/
def collectIds : List RawPlace → List String → List String
  | [], seen => seen
  | p :: t, seen =>
    match p.place_id with
    | none => collectIds t seen
    | some i => if i ∈ seen then collectIds t seen else collectIds t (i :: seen)

/-- The merger over the ordered per-sub-query result lists: the handler
concatenates every successful batch into `merged` (in sub-query issue
order) and dedupes by id. -/
def mergeAll (batches : List (List RawPlace)) : List RawPlace :=
  dedupeById batches.flatten

/-- `const CACHE_TTL_MS = 10 * 60 * 1000` (src/api/places.js line 136),
in milliseconds. -/
def CACHE_TTL_MS : ℤ := 10 * 60 * 1000

/-- A cache entry `{ts: nowMs(), data: payload}` (src/api/places.js
line 386). -/
structure CacheEntry (α : Type) where
  ts : ℤ
  data : α
deriving DecidableEq, Repr

/-- The process-memory cache `globalThis.__placesCache`, a JS `Map` from
stringified cache keys to entries, modelled as an association list with
`Map` update semantics. -/
abbrev Store (α : Type) := List (String × CacheEntry α)

/-- `_cache.set(k, e)`: replace the entry under `k` if present, else
append (JS `Map.set`). -/
def cacheSet {α : Type} (c : Store α) (k : String) (e : CacheEntry α) : Store α :=
  match c with
  | [] => [(k, e)]
  | (k0, e0) :: t => if k0 = k then (k, e) :: t else (k0, e0) :: cacheSet t k e

/-- `_cache.get(k)` (JS `Map.get`). -/
def cacheGet {α : Type} (c : Store α) (k : String) : Option (CacheEntry α) :=
  match c with
  | [] => none
  | (k0, e0) :: t => if k0 = k then some e0 else cacheGet t k

/-- The handler's cache read (src/api/places.js lines 279–282):
`const cached = _cache.get(cacheKey); if (cached && (nowMs() - cached.ts)
< CACHE_TTL_MS) return ... cached.data`.  The read is pure: nothing in
the read path deletes or rewrites the stored entry. -/
def readFresh {α : Type} (c : Store α) (k : String) (now : ℤ) : Option α :=
  match cacheGet c k with
  | some e => if now - e.ts < CACHE_TTL_MS then some e.data else none
  | none => none

/-- A venue record at the sort stage, after score and distance have been
computed (src/api/places.js lines 334–361): `_score` is the internal
score, `distanceKm` is `null` when the provider omitted geometry, and
`id`/`name`/`rating` stand in for the remaining payload fields.  Scores
and distances are exact rationals. -/
structure ScoredPlace where
  id : Option String
  name : String
  rating : Option ℚ
  distanceKm : Option ℚ
  score : ℚ
deriving DecidableEq, Repr

/-- A response venue: the same record with the internal `_score` field
stripped (src/api/places.js lines 379–382: `const { _score, ...rest } =
p; return rest`). -/
structure OutPlace where
  id : Option String
  name : String
  rating : Option ℚ
  distanceKm : Option ℚ
deriving DecidableEq, Repr

/-- The comparator's epsilon `1e-9` (src/api/places.js line 373). -/
def eps : ℚ := 1 / 1000000000

/-- `b._score || 0` in the comparator: `||` maps a zero score to `0`,
i.e. is the identity here, since scores are exact rationals (never NaN). -/
def scoreOf (p : ScoredPlace) : ℚ := p.score

/-- `a.distanceKm ?? 999` in the comparator (src/api/places.js
line 374). -/
def distOf (p : ScoredPlace) : ℚ := p.distanceKm.getD 999

/-- The sort comparator (src/api/places.js lines 371–376) read as
"`a` strictly precedes `b`", i.e. `comparator(a, b) < 0`:
`ds = b._score - a._score`; if `|ds| > 1e-9` the sign of `ds` decides,
otherwise the sign of `a.distanceKm - b.distanceKm` decides. -/
def placeBefore (a b : ScoredPlace) : Bool :=
  let ds := scoreOf b - scoreOf a
  if eps < |ds| then decide (ds < 0) else decide (distOf a - distOf b < 0)

/-- Stable insertion of one element according to the comparator: the new
element passes every element it strictly precedes and stops otherwise
(equal-ranked elements keep their original relative order, as JS
`Array.prototype.sort` is stable). -/
def insertPlace (p : ScoredPlace) : List ScoredPlace → List ScoredPlace
  | [] => [p]
  | h :: t => if placeBefore p h then p :: h :: t else h :: insertPlace p t

/-- `places.sort(comparator)` (src/api/places.js lines 371–376),
modelled as a stable insertion sort driven by the comparator. -/
def sortPlaces (l : List ScoredPlace) : List ScoredPlace :=
  l.foldl (fun acc p => insertPlace p acc) []

/-- Strip the internal `_score` field (src/api/places.js lines 379–382). -/
def stripScore (p : ScoredPlace) : OutPlace :=
  { id := p.id, name := p.name, rating := p.rating, distanceKm := p.distanceKm }

/-- `places.slice(0, max).map(strip)` after the sort (src/api/places.js
lines 379–382): the final response venue list. -/
def capResults (l : List ScoredPlace) (max : ℕ) : List OutPlace :=
  ((sortPlaces l).take max).map stripScore

/-- The ranking order the specification describes for adjacent venues of
the response (spec §4.7): `x` may sit directly above `y` when `x`'s score
exceeds `y`'s by more than the epsilon, or the two scores are within the
epsilon of each other and `x` is no farther than `y`. -/
def rankedAbove (x y : ScoredPlace) : Prop :=
  eps < scoreOf x - scoreOf y ∨ (|scoreOf x - scoreOf y| ≤ eps ∧ distOf x ≤ distOf y)

/-- Claim C1: for every venue, with rating defaulting to 0 when absent,
review count defaulting to 0 when absent, and distance defaulting to 999
when coordinates are unavailable, the computed score equals
`r*ln(1+n)*1.35 + max(0, 6 - min(6, d))*0.6` in famous mode and
`r*ln(1+n)*1.0 + max(0, 6 - min(6, d))*1.1` in balanced mode. -/
theorem scorer_matches_spec (rating userRatingsTotal distanceKm : Option ℝ) (mode : Mode) :
    popularityScore rating userRatingsTotal distanceKm mode =
      specScore (rating.getD 0) (userRatingsTotal.getD 0) (distanceKm.getD 999) mode := by
  cases mode <;> rfl

/-- Claim C4 counterexample: on the thin-proxy path (src/server.mjs
line 34, and the identical lines of src/places.js) a `maxResults`
parameter of `"0"` reaches the provider call as `0`, which is outside
the claimed `[1,20]` interval — the lower bound is not enforced there. -/
theorem thin_path_maxResults_unbounded :
    Server.maxResults (some (some 0)) = some 0 ∧
    withinBounds (Server.maxResults (some (some 0))) = false := by decide

/-- Claim C4, amended: the radius used downstream lies in `[1,20]` on
every path, and the max-result count lies in `[1,20]` on the rich
handler path; on the thin-proxy paths the max-result count is only
bounded above by 20 (no lower bound is enforced). -/
theorem bounds_on_paths (rq : JSNum) (mq : JSInt) (p : JSNum) :
    (1 ≤ Api.radius rq ∧ Api.radius rq ≤ 20) ∧
    (1 ≤ Api.maxRes mq ∧ Api.maxRes mq ≤ 20) ∧
    (1 ≤ Server.radiusKm p ∧ Server.radiusKm p ≤ 20) ∧
    (∀ raw m, Server.maxResults raw = some m → m ≤ 20) := by
  refine ⟨⟨le_max_left _ _, ?_⟩, ⟨le_max_left _ _, ?_⟩,
    ⟨le_min (le_max_right _ _) (by norm_num), min_le_right _ _⟩, ?_⟩
  · exact max_le (by norm_num) (min_le_left _ _)
  · exact max_le (by norm_num) (min_le_left _ _)
  · intro raw m h
    match raw with
    | none =>
      simp only [Server.maxResults, Option.some.injEq] at h
      omega
    | some none => simp [Server.maxResults] at h
    | some (some n) =>
      simp only [Server.maxResults, Option.some.injEq] at h
      omega

/-- Claim C4 witness: the amended bounds at concrete inputs. -/
theorem bounds_on_paths_witness :
    (1 ≤ Api.radius (some 0) ∧ Api.radius (some 0) ≤ 20) ∧ (5 : ℤ) ≤ 20 :=
  ⟨(bounds_on_paths (some 0) none none).1,
   (bounds_on_paths (some 0) none none).2.2.2 (some (some 5)) 5 (by decide)⟩

/-- Claim C10 counterexample: on src/server.mjs line 34 a `maxResults`
parameter that parses to `NaN` does not fall back to the default 12:
`Math.min(NaN, 20)` is `NaN`, so the `NaN` propagates downstream. -/
theorem server_maxResults_no_default :
    Server.maxResults (some none) = none ∧ Server.maxResults (some none) ≠ some 12 := by
  decide

/-- Claim C10, amended: on the rich handler path (src/api/places.js
lines 245–246) a `radiusKm` parse of 0 or `NaN` falls back to the
default 5 before clamping, and a `maxResults` parse of 0 or `NaN` falls
back to the default 12; on src/server.mjs this holds for the radius, but
`maxResults` has no such fallback (a `"0"` stays 0 and a `NaN` parse
propagates). -/
theorem rich_handler_falsy_defaults :
    Api.radius (some 0) = 5 ∧ Api.radius none = 5 ∧
    Api.maxRes (some 0) = 12 ∧ Api.maxRes none = 12 ∧
    Server.radiusKm (some 0) = 5 ∧ Server.radiusKm none = 5 ∧
    Server.maxResults (some (some 0)) = some 0 := by decide

/-- Claim C2 counterexample: two requests identical except for the order
of the comma-separated cuisine list produce different cache keys — the
expanded keyword array keeps Set insertion order and is serialized in
that order, so the key is not order-invariant. -/
theorem cacheKey_order_dependent :
    Api.cacheKey "19.20000" "72.97000" 5 12 "Udupi,Chaat" false Mode.balanced ≠
    Api.cacheKey "19.20000" "72.97000" 5 12 "Chaat,Udupi" false Mode.balanced := by
  decide

namespace Api

theorem mem_addKeyword_of_mem {acc : List String} {x : String} (k : String) (h : x ∈ acc) :
    x ∈ addKeyword acc k := by
  unfold addKeyword
  split
  · exact h
  · exact List.mem_append_left _ h

theorem mem_addKeyword_self (acc : List String) (k : String) : k ∈ addKeyword acc k := by
  unfold addKeyword
  split
  · assumption
  · exact List.mem_append_right _ (by simp)

theorem addKeyword_eq_of_mem {acc : List String} {k : String} (h : k ∈ acc) :
    addKeyword acc k = acc := by
  unfold addKeyword
  simp [h]

theorem mem_foldl_addKeyword_of_mem (g : List String) :
    ∀ {acc : List String} {x : String}, x ∈ acc → x ∈ g.foldl addKeyword acc := by
  induction g with
  | nil => intro acc x h; exact h
  | cons a t ih => intro acc x h; exact ih (mem_addKeyword_of_mem a h)

theorem mem_foldl_addKeyword_of_mem_list (g : List String) :
    ∀ {acc : List String} {x : String}, x ∈ g → x ∈ g.foldl addKeyword acc := by
  induction g with
  | nil => intro acc x h; cases h
  | cons a t ih =>
    intro acc x h
    rcases List.mem_cons.mp h with h | h
    · subst h; exact mem_foldl_addKeyword_of_mem t (mem_addKeyword_self acc x)
    · exact ih h

theorem foldl_addKeyword_eq_of_subset (g : List String) :
    ∀ {acc : List String}, (∀ x ∈ g, x ∈ acc) → g.foldl addKeyword acc = acc := by
  induction g with
  | nil => intro acc _; rfl
  | cons a t ih =>
    intro acc h
    have ha : a ∈ acc := h a (by simp)
    simp only [List.foldl_cons, addKeyword_eq_of_mem ha]
    exact ih fun x hx => h x (by simp [hx])

theorem mem_expandStep_of_mem {acc : List String} {x : String} (c : String) (h : x ∈ acc) :
    x ∈ expandStep acc c := by
  unfold expandStep
  cases CUISINE_GROUPS c with
  | none => exact mem_addKeyword_of_mem c h
  | some g => exact mem_foldl_addKeyword_of_mem g h

theorem tokensOf_subset_expandStep (acc : List String) (c : String) :
    ∀ x ∈ tokensOf c, x ∈ expandStep acc c := by
  unfold tokensOf expandStep
  cases CUISINE_GROUPS c with
  | none => intro x hx; simp only [List.mem_singleton] at hx; subst hx; exact mem_addKeyword_self acc x
  | some g => intro x hx; exact mem_foldl_addKeyword_of_mem_list g hx

theorem expandStep_eq_of_covered {acc : List String} {c : String}
    (h : ∀ x ∈ tokensOf c, x ∈ acc) : expandStep acc c = acc := by
  unfold tokensOf at h
  unfold expandStep
  cases hg : CUISINE_GROUPS c with
  | none => rw [hg] at h; exact addKeyword_eq_of_mem (h c (by simp))
  | some g => rw [hg] at h; exact foldl_addKeyword_eq_of_subset g h

theorem mem_foldl_expandStep_of_mem (l : List String) :
    ∀ {acc : List String} {x : String}, x ∈ acc →
      x ∈ l.foldl expandStep acc := by
  induction l with
  | nil => intro acc x h; exact h
  | cons a t ih => intro acc x h; exact ih (mem_expandStep_of_mem a h)

theorem tokensOf_subset_foldl_expandStep (l : List String) :
    ∀ (acc : List String), ∀ c ∈ l, ∀ x ∈ tokensOf c, x ∈ l.foldl expandStep acc := by
  induction l with
  | nil => intro acc c hc; cases hc
  | cons a t ih =>
    intro acc c hc x hx
    rcases List.mem_cons.mp hc with hc | hc
    · subst hc
      exact mem_foldl_expandStep_of_mem t (tokensOf_subset_expandStep acc c x hx)
    · exact ih _ c hc x hx

theorem foldl_expandStep_eq_of_covered (l : List String) :
    ∀ {acc : List String}, (∀ c ∈ l, ∀ x ∈ tokensOf c, x ∈ acc) →
      l.foldl expandStep acc = acc := by
  induction l with
  | nil => intro acc _; rfl
  | cons a t ih =>
    intro acc h
    simp only [List.foldl_cons, expandStep_eq_of_covered (h a (by simp))]
    exact ih fun c hc x hx => h c (by simp [hc]) x hx

/-- The keyword expansion has set semantics: feeding the cuisine list
twice adds nothing. -/
theorem expandKeywords_append_self (l : List String) :
    expandKeywords (l ++ l) = expandKeywords l := by
  unfold expandKeywords
  rw [List.foldl_append]
  exact foldl_expandStep_eq_of_covered l
    fun c hc x hx => tokensOf_subset_foldl_expandStep l [] c hc x hx

end Api

/-- Claim C2, amended: the cache key is not invariant under permutation
of the cuisine list — the serialized keyword array keeps Set insertion
order, so reordering the cuisines can change the key (see the
counterexample).  The key is a deterministic function of the ordered
cuisine list, and it is invariant under repeating the cuisine list
(duplicate tags insert no new keywords). -/
theorem cacheKey_duplicate_invariant (latS lngS : String) (radius : ℚ) (max : ℤ)
    (l : List String) (pv : Bool) (mode : Mode) :
    Api.cacheKeyOfList latS lngS radius max (l ++ l) pv mode =
      Api.cacheKeyOfList latS lngS radius max l pv mode := by
  unfold Api.cacheKeyOfList
  rw [Api.expandKeywords_append_self]

theorem isInfix_append_left {α : Type} {l l2 : List α} (l1 : List α) (h : l <:+: l2) :
    l <:+: l1 ++ l2 := by
  obtain ⟨s, t, hst⟩ := h
  exact ⟨l1 ++ s, t, by rw [← hst]; simp⟩

/-- Claim C3 counterexample: with the dietary flag set and cuisines
`"Maharashtrian"`, the expanded keyword list is non-empty and the first
keyword-bearing sub-query's composite keyword is
`"Maharashtrian pure veg restaurant"` — the fixed token `"vegetarian"`
is not appended to it (only `" pure veg restaurant"` is). -/
theorem pureVeg_no_vegetarian_token :
    Api.expandKeywords (Api.rawCuisines "Maharashtrian") ≠ [] ∧
    (Api.subQueries (Api.expandKeywords (Api.rawCuisines "Maharashtrian"))
        true Mode.balanced).head? = some (some "Maharashtrian pure veg restaurant") ∧
    ¬ ("vegetarian".data <:+: ("Maharashtrian pure veg restaurant").data) := by
  decide

/-- Claim C3, amended: with the dietary flag set and a non-empty
expanded keyword list, every keyword-bearing sub-query's composite
keyword is the keyword followed by the fixed suffix
`" pure veg restaurant"` (so the token `"pure veg"` is appended, but the
token `"vegetarian"` is not), and no separate dietary-only sub-query is
issued: the sub-queries are exactly the first 8 keywords in expansion
order. -/
theorem pureVeg_keyword_suffix (kws : List String) (h : kws ≠ []) (mode : Mode) :
    Api.subQueries kws true mode =
      (kws.take 8).map (fun k => some (k ++ " pure veg restaurant")) ∧
    (Api.subQueries kws true mode).length = min kws.length 8 ∧
    ∀ q ∈ Api.subQueries kws true mode, ∃ k, k ∈ kws.take 8 ∧
      q = some (k ++ " pure veg restaurant") ∧
      "pure veg".data <:+: (k ++ " pure veg restaurant").data := by
  have hlen : kws.length ≠ 0 := by simpa [List.length_eq_zero] using h
  have heq : Api.subQueries kws true mode =
      (kws.take 8).map (fun k => some (k ++ " pure veg restaurant")) := by
    unfold Api.subQueries
    rw [if_pos hlen]
    simp
  refine ⟨heq, ?_, ?_⟩
  · rw [heq, List.length_map, List.length_take, Nat.min_comm]
  · intro q hq
    rw [heq] at hq
    obtain ⟨k, hk, rfl⟩ := List.mem_map.mp hq
    refine ⟨k, hk, rfl, ?_⟩
    have hbase : "pure veg".data <:+: " pure veg restaurant".data := by decide
    exact isInfix_append_left k.data hbase

/-- Claim C3 witness: the amended statement at cuisines
`["Maharashtrian"]`. -/
theorem pureVeg_keyword_suffix_witness :
    Api.subQueries ["Maharashtrian"] true Mode.balanced =
      ((["Maharashtrian"].take 8).map (fun k => some (k ++ " pure veg restaurant"))) :=
  (pureVeg_keyword_suffix ["Maharashtrian"] (by decide) Mode.balanced).1

/-- Claim C5 counterexample: in a two-sub-query fan-out, one sub-query
whose `fetch` promise rejects (a transport-level failure: `fetchNearby`
has no try/catch around the `await fetch`) makes the whole
`Promise.all` reject, which the handler's top-level catch turns into an
overall 500 failure — it does not collapse to an absent contribution. -/
theorem transport_failure_escalates :
    runFetches [FetchOutcome.threw,
      FetchOutcome.got true 200 "body" (some { status := "OK", results := some [] })] =
      Except.error () := rfl

theorem mergeStep_absent {r : FetchResult} (m : List RawPlace) (h : isAbsent r = true) :
    mergeStep m r = m := by
  cases r with
  | failed status text => rfl
  | succeeded j =>
    simp only [isAbsent, decide_eq_true_eq] at h
    simp [mergeStep, h]

theorem fetchNearby_ok_of_not_threw {o : FetchOutcome} (h : o ≠ FetchOutcome.threw) :
    ∃ r, fetchNearby o = Except.ok r := by
  cases o with
  | threw => exact absurd rfl h
  | got ok status text parsed => cases ok <;> cases parsed <;> simp [fetchNearby]

/-- Claim C5, amended: inside the fan-out, a non-success HTTP status, an
unparsable body, and a provider-reported status other than
`OK`/`ZERO_RESULTS` each collapse to an absent contribution for that
sub-query (the merge loop skips them and the request does not fail), but
a transport-level failure — a rejected `fetch` promise — escalates to an
overall request failure (see the counterexample). -/
theorem subquery_failures_collapse :
    (∀ outcomes : List FetchOutcome, FetchOutcome.threw ∉ outcomes →
        ∃ rs, runFetches outcomes = Except.ok rs) ∧
    (∀ (status : ℤ) (text : String) (parsed : Option ProviderBody),
        fetchNearby (FetchOutcome.got false status text parsed) =
          Except.ok (FetchResult.failed status text)) ∧
    (∀ (status : ℤ) (text : String),
        fetchNearby (FetchOutcome.got true status text none) =
          Except.ok (FetchResult.failed 502 text)) ∧
    (∀ (status : ℤ) (text : String), isAbsent (FetchResult.failed status text) = true) ∧
    (∀ j : ProviderBody, j.status ≠ "OK" → j.status ≠ "ZERO_RESULTS" →
        isAbsent (FetchResult.succeeded j) = true) ∧
    (∀ (l1 l2 : List FetchResult) (r : FetchResult), isAbsent r = true →
        mergeFetched (l1 ++ r :: l2) = mergeFetched (l1 ++ l2)) := by
  refine ⟨?_, fun _ _ _ => rfl, fun _ _ => rfl, fun _ _ => rfl, ?_, ?_⟩
  · intro outcomes h
    induction outcomes with
    | nil => exact ⟨[], rfl⟩
    | cons o rest ih =>
      obtain ⟨r, hr⟩ := fetchNearby_ok_of_not_threw (fun ho => h (ho ▸ List.mem_cons_self o rest))
      obtain ⟨rs, hrs⟩ := ih fun hm => h (List.mem_cons_of_mem o hm)
      exact ⟨r :: rs, by simp [runFetches, hr, hrs]⟩
  · intro j h1 h2
    simp [isAbsent, h1, h2]
  · intro l1 l2 r h
    unfold mergeFetched
    rw [List.foldl_append, List.foldl_append, List.foldl_cons, mergeStep_absent _ h]

/-- Claim C5 witness: the amended statement at concrete inputs — one
successful sub-query runs to completion, a denied provider status is
absent, and a failed fetch result contributes nothing to the merge. -/
theorem subquery_failures_collapse_witness :
    (∃ rs, runFetches
        [FetchOutcome.got true 200 "t" (some { status := "OK", results := some [] })] =
        Except.ok rs) ∧
    isAbsent (FetchResult.succeeded { status := "REQUEST_DENIED", results := none }) = true ∧
    mergeFetched ([] ++ FetchResult.failed 500 "boom" :: []) = mergeFetched ([] ++ []) :=
  ⟨subquery_failures_collapse.1 _ (by decide),
   subquery_failures_collapse.2.2.2.2.1 _ (by decide) (by decide),
   subquery_failures_collapse.2.2.2.2.2 [] [] _ (by decide)⟩

/-- Claim C6 counterexample: a read performed more than the 10-minute
TTL after the `set` is treated as absent, but the stale entry is NOT
evicted from the store — nothing on the read path deletes it, so
`_cache.get` still finds it afterwards.  (It is only replaced when a
later recomputation stores a fresh payload under the same key.) -/
theorem stale_entry_not_evicted :
    readFresh (cacheSet ([] : Store ℕ) "k" { ts := 0, data := 7 }) "k" (CACHE_TTL_MS + 1) =
      none ∧
    cacheGet (cacheSet ([] : Store ℕ) "k" { ts := 0, data := 7 }) "k" =
      some { ts := 0, data := 7 } := by
  decide

theorem cacheGet_cacheSet {α : Type} (c : Store α) (k : String) (e : CacheEntry α) :
    cacheGet (cacheSet c k e) k = some e := by
  induction c with
  | nil => simp [cacheSet, cacheGet]
  | cons kv t ih =>
    obtain ⟨k0, e0⟩ := kv
    by_cases hk : k0 = k
    · simp [cacheSet, cacheGet, hk]
    · simp [cacheSet, cacheGet, hk, ih]

/-- Claim C6, amended: a `set(k, v)` followed immediately by `get(k)`
returns `v`, and a `get(k)` performed TTL-or-more after the set returns
absent; the stale entry, however, is not evicted by the read — it stays
in the store (until a later `set` under the same key overwrites it). -/
theorem cache_roundtrip_ttl {α : Type} (c : Store α) (k : String) (e : CacheEntry α)
    (now : ℤ) :
    readFresh (cacheSet c k e) k e.ts = some e.data ∧
    (CACHE_TTL_MS ≤ now - e.ts → readFresh (cacheSet c k e) k now = none) ∧
    cacheGet (cacheSet c k e) k = some e := by
  refine ⟨?_, ?_, cacheGet_cacheSet c k e⟩
  · unfold readFresh
    rw [cacheGet_cacheSet]
    norm_num [CACHE_TTL_MS]
  · intro h
    unfold readFresh
    rw [cacheGet_cacheSet]
    simp only [if_neg (not_lt.mpr h)]

/-- Claim C6 witness: the amended statement at a concrete store, key,
payload and a read 600001 ms (one millisecond past the TTL) later. -/
theorem cache_roundtrip_ttl_witness :
    readFresh (cacheSet ([] : Store ℕ) "k" { ts := 0, data := 7 }) "k" 0 = some 7 ∧
    readFresh (cacheSet ([] : Store ℕ) "k" { ts := 0, data := 7 }) "k" 600001 = none :=
  ⟨(cache_roundtrip_ttl [] "k" { ts := 0, data := 7 } 0).1,
   (cache_roundtrip_ttl [] "k" { ts := 0, data := 7 } 600001).2.1 (by decide)⟩

/-- Claim C8 counterexample: with an empty keyword list, dietary flag
set and balanced mode, the planner issues exactly one sub-query, but it
is not keywordless — it carries the keyword `"pure veg restaurant"`. -/
theorem broad_query_carries_pureVeg_keyword :
    Api.subQueries [] true Mode.balanced = [some "pure veg restaurant"] ∧
    ¬ (∀ q ∈ Api.subQueries [] true Mode.balanced, q = none) := by
  decide

/-- Claim C8, amended: with an empty expanded keyword list the planner
issues exactly one broad sub-query — keywordless when the dietary flag
is unset, carrying `"pure veg restaurant"` when it is set — and exactly
two in famous mode, the second carrying a famous/popular keyword token;
with a non-empty keyword list it issues the first 8 keywords in
expansion order (at most 8 sub-queries). -/
theorem planner_query_counts (kws : List String) (pv : Bool) (mode : Mode) :
    (kws = [] →
      (Api.subQueries kws pv mode).length = (if mode = Mode.famous then 2 else 1) ∧
      (Api.subQueries kws pv mode).head? =
        some (if pv then some "pure veg restaurant" else none) ∧
      (mode = Mode.famous →
        (Api.subQueries kws pv mode).getLast? =
          some (some (if pv then "famous pure veg restaurant" else "famous restaurant")))) ∧
    (kws ≠ [] →
      Api.subQueries kws pv mode =
        (kws.take 8).map (fun k =>
          some (if pv then k ++ " pure veg restaurant" else k ++ " restaurant")) ∧
      (Api.subQueries kws pv mode).length = min kws.length 8) := by
  constructor
  · intro h
    subst h
    cases mode <;> cases pv <;> simp [Api.subQueries]
  · intro h
    have hlen : kws.length ≠ 0 := by simpa [List.length_eq_zero] using h
    have heq : Api.subQueries kws pv mode =
        (kws.take 8).map (fun k =>
          some (if pv then k ++ " pure veg restaurant" else k ++ " restaurant")) := by
      unfold Api.subQueries
      rw [if_pos hlen]
    exact ⟨heq, by rw [heq, List.length_map, List.length_take, Nat.min_comm]⟩

/-- Claim C8 witness: the amended statement at concrete inputs — the
famous-mode broad pair and a single-keyword request. -/
theorem planner_query_counts_witness :
    (Api.subQueries [] false Mode.famous).length = 2 ∧
    Api.subQueries ["Udupi"] false Mode.balanced = [some "Udupi restaurant"] :=
  ⟨(((planner_query_counts [] false Mode.famous).1 rfl).1).trans (by decide),
   (((planner_query_counts ["Udupi"] false Mode.balanced).2 (by decide)).1).trans (by decide)⟩

theorem dedupeAux_spec (l : List RawPlace) :
    ∀ seen : List String,
      (∀ p ∈ dedupeAux l seen, ∃ i, p.place_id = some i ∧ i ∉ seen ∧
          List.find? (fun q => decide (q.place_id = some i)) l = some p) ∧
      ((dedupeAux l seen).map RawPlace.place_id).Nodup := by
  induction l with
  | nil =>
    intro seen
    exact ⟨fun p hp => absurd hp (by simp [dedupeAux]), by simp [dedupeAux]⟩
  | cons p t ih =>
    intro seen
    cases hp : p.place_id with
    | none =>
      have hred : dedupeAux (p :: t) seen = dedupeAux t seen := by simp [dedupeAux, hp]
      refine ⟨?_, hred ▸ (ih seen).2⟩
      intro q hq
      rw [hred] at hq
      obtain ⟨i, hqi, his, hfind⟩ := (ih seen).1 q hq
      refine ⟨i, hqi, his, ?_⟩
      rw [List.find?_cons_of_neg _ (by simp [hp]), hfind]
    | some j =>
      by_cases hj : j ∈ seen
      · have hred : dedupeAux (p :: t) seen = dedupeAux t seen := by
          simp [dedupeAux, hp, hj]
        refine ⟨?_, hred ▸ (ih seen).2⟩
        intro q hq
        rw [hred] at hq
        obtain ⟨i, hqi, his, hfind⟩ := (ih seen).1 q hq
        have hij : i ≠ j := fun hh => his (hh ▸ hj)
        refine ⟨i, hqi, his, ?_⟩
        rw [List.find?_cons_of_neg _ (by simp [hp]; exact fun hh => hij hh.symm), hfind]
      · have hred : dedupeAux (p :: t) seen = p :: dedupeAux t (j :: seen) := by
          simp [dedupeAux, hp, hj]
        constructor
        · intro q hq
          rw [hred] at hq
          rcases List.mem_cons.mp hq with rfl | hq
          · exact ⟨j, hp, hj, by rw [List.find?_cons_of_pos _ (by simp [hp])]⟩
          · obtain ⟨i, hqi, his, hfind⟩ := (ih (j :: seen)).1 q hq
            have hii : i ∉ seen := fun hh => his (List.mem_cons_of_mem _ hh)
            have hij : i ≠ j := fun hh => his (hh ▸ List.mem_cons_self j seen)
            refine ⟨i, hqi, hii, ?_⟩
            rw [List.find?_cons_of_neg _ (by simp [hp]; exact fun hh => hij hh.symm), hfind]
        · rw [hred, List.map_cons, List.nodup_cons]
          refine ⟨?_, (ih (j :: seen)).2⟩
          rw [hp]
          intro hmem
          obtain ⟨q, hq, hqj⟩ := List.mem_map.mp hmem
          obtain ⟨i, hqi, his, _⟩ := (ih (j :: seen)).1 q hq
          rw [hqi] at hqj
          have hij : i = j := Option.some.inj hqj
          exact his (by rw [hij]; exact List.mem_cons_self j seen)

theorem dedupeAux_append (l1 l2 : List RawPlace) :
    ∀ seen, dedupeAux (l1 ++ l2) seen =
      dedupeAux l1 seen ++ dedupeAux l2 (collectIds l1 seen) := by
  induction l1 with
  | nil => intro seen; rfl
  | cons p t ih =>
    intro seen
    cases hp : p.place_id with
    | none => simp [dedupeAux, collectIds, hp, ih]
    | some j => by_cases hj : j ∈ seen <;> simp [dedupeAux, collectIds, hp, hj, ih]

theorem mem_collectIds_of_mem_seen (l : List RawPlace) :
    ∀ {seen : List String} {i : String}, i ∈ seen → i ∈ collectIds l seen := by
  induction l with
  | nil => intro seen i h; exact h
  | cons p t ih =>
    intro seen i h
    cases hp : p.place_id with
    | none => simp only [collectIds, hp]; exact ih h
    | some j =>
      by_cases hj : j ∈ seen
      · simp only [collectIds, hp, if_pos hj]; exact ih h
      · simp only [collectIds, hp, if_neg hj]; exact ih (List.mem_cons_of_mem _ h)

theorem mem_collectIds_of_mem (l : List RawPlace) :
    ∀ {seen : List String} {p : RawPlace} {i : String}, p ∈ l → p.place_id = some i →
      i ∈ collectIds l seen := by
  induction l with
  | nil => intro _ _ _ h; cases h
  | cons q t ih =>
    intro seen p i hp hpi
    rcases List.mem_cons.mp hp with rfl | hp
    · simp only [collectIds, hpi]
      by_cases hi : i ∈ seen
      · simp only [if_pos hi]; exact mem_collectIds_of_mem_seen t hi
      · simp only [if_neg hi]
        exact mem_collectIds_of_mem_seen t (List.mem_cons_self i seen)
    · cases hq : q.place_id with
      | none => simp only [collectIds, hq]; exact ih hp hpi
      | some j =>
        by_cases hj : j ∈ seen
        · simp only [collectIds, hq, if_pos hj]; exact ih hp hpi
        · simp only [collectIds, hq, if_neg hj]; exact ih hp hpi

theorem dedupeAux_eq_nil (l : List RawPlace) :
    ∀ {seen : List String}, (∀ p ∈ l, ∀ i, p.place_id = some i → i ∈ seen) →
      dedupeAux l seen = [] := by
  induction l with
  | nil => intro _ _; rfl
  | cons p t ih =>
    intro seen h
    cases hp : p.place_id with
    | none =>
      simp only [dedupeAux, hp]
      exact ih fun q hq => h q (List.mem_cons_of_mem _ hq)
    | some j =>
      have hj : j ∈ seen := h p (List.mem_cons_self p t) j hp
      simp only [dedupeAux, hp, if_pos hj]
      exact ih fun q hq => h q (List.mem_cons_of_mem _ hq)

/-- Claim C9: merging the ordered per-sub-query result lists keeps
exactly the first occurrence of each provider id (the kept record is
what `find?` by that id returns on the concatenated input, so later
duplicates are discarded wholesale, with no field merging), drops every
venue lacking a provider id (every kept record has one), yields
pairwise-distinct ids, and is idempotent: merging a result list
concatenated with itself equals merging it once. -/
theorem dedupe_first_occurrence_idempotent (l : List RawPlace) :
    ((dedupeById l).map RawPlace.place_id).Nodup ∧
    (∀ p ∈ dedupeById l, ∃ i, p.place_id = some i ∧
        List.find? (fun q => decide (q.place_id = some i)) l = some p) ∧
    mergeAll [l, l] = mergeAll [l] := by
  refine ⟨(dedupeAux_spec l []).2, ?_, ?_⟩
  · intro p hp
    obtain ⟨i, h1, _, h3⟩ := (dedupeAux_spec l []).1 p hp
    exact ⟨i, h1, h3⟩
  · have h1 : ([l, l] : List (List RawPlace)).flatten = l ++ l := by simp
    have h2 : ([l] : List (List RawPlace)).flatten = l := by simp
    unfold mergeAll
    rw [h1, h2]
    unfold dedupeById
    rw [dedupeAux_append l l [],
      dedupeAux_eq_nil l fun p hp i hpi => mem_collectIds_of_mem l hp hpi,
      List.append_nil]

/-- Claim C9 witness: the statement applied to a concrete batch with a
duplicate id and an id-less venue. -/
theorem dedupe_first_occurrence_idempotent_witness :
    ((dedupeById [RawPlace.mk (some "a") "X" none, RawPlace.mk none "Y" none,
        RawPlace.mk (some "a") "Z" (some 4)]).map RawPlace.place_id).Nodup ∧
    mergeAll [[RawPlace.mk (some "a") "X" none], [RawPlace.mk (some "a") "X" none]] =
      mergeAll [[RawPlace.mk (some "a") "X" none]] ∧
    (∃ i, (RawPlace.mk (some "a") "X" none).place_id = some i ∧
      List.find? (fun q => decide (q.place_id = some i))
          [RawPlace.mk (some "a") "X" none, RawPlace.mk none "Y" none,
           RawPlace.mk (some "a") "Z" (some 4)] =
        some (RawPlace.mk (some "a") "X" none)) :=
  ⟨(dedupe_first_occurrence_idempotent
      [RawPlace.mk (some "a") "X" none, RawPlace.mk none "Y" none,
       RawPlace.mk (some "a") "Z" (some 4)]).1,
   (dedupe_first_occurrence_idempotent [RawPlace.mk (some "a") "X" none]).2.2,
   (dedupe_first_occurrence_idempotent
      [RawPlace.mk (some "a") "X" none, RawPlace.mk none "Y" none,
       RawPlace.mk (some "a") "Z" (some 4)]).2.1
      (RawPlace.mk (some "a") "X" none) (by decide)⟩

theorem placeBefore_asymm {a b : ScoredPlace} (h : placeBefore a b = true) :
    placeBefore b a = false := by
  simp only [placeBefore] at h ⊢
  rw [abs_sub_comm (scoreOf a) (scoreOf b)]
  by_cases hc : eps < |scoreOf b - scoreOf a|
  · rw [if_pos hc] at h ⊢
    simp only [decide_eq_true_eq] at h
    simp only [decide_eq_false_iff_not, not_lt]
    linarith
  · rw [if_neg hc] at h ⊢
    simp only [decide_eq_true_eq] at h
    simp only [decide_eq_false_iff_not, not_lt]
    linarith

theorem placeBefore_false_iff {x y : ScoredPlace} :
    placeBefore y x = false ↔ rankedAbove x y := by
  simp only [placeBefore, rankedAbove]
  by_cases hc : eps < |scoreOf x - scoreOf y|
  · rw [if_pos hc]
    simp only [decide_eq_false_iff_not, not_lt]
    constructor
    · intro h
      left
      calc eps < |scoreOf x - scoreOf y| := hc
        _ = scoreOf x - scoreOf y := abs_of_nonneg h
    · intro h
      rcases h with h | ⟨h1, _⟩
      · have heps : (0 : ℚ) < eps := by norm_num [eps]
        linarith
      · linarith
  · rw [if_neg hc]
    simp only [decide_eq_false_iff_not, not_lt]
    push_neg at hc
    constructor
    · intro h
      exact Or.inr ⟨hc, by linarith⟩
    · intro h
      rcases h with h | ⟨_, h2⟩
      · have := le_abs_self (scoreOf x - scoreOf y)
        linarith
      · linarith

theorem chain_insertPlace {p : ScoredPlace} :
    ∀ {l : List ScoredPlace},
      List.Chain' (fun x y => placeBefore y x = false) l →
      List.Chain' (fun x y => placeBefore y x = false) (insertPlace p l) := by
  intro l
  induction l with
  | nil => intro _; simp [insertPlace]
  | cons h t ih =>
    intro hc
    unfold insertPlace
    by_cases hb : placeBefore p h = true
    · rw [if_pos hb]
      exact List.chain'_cons.mpr ⟨placeBefore_asymm hb, hc⟩
    · have hb' : placeBefore p h = false := by simpa using hb
      rw [if_neg hb]
      refine List.chain'_cons'.mpr ⟨?_, ih hc.tail⟩
      cases t with
      | nil =>
        intro y hy
        simp only [insertPlace, List.head?_cons, Option.mem_def, Option.some.injEq] at hy
        rw [← hy]
        exact hb'
      | cons h2 t2 =>
        intro y hy
        unfold insertPlace at hy
        by_cases hb2 : placeBefore p h2 = true
        · rw [if_pos hb2] at hy
          simp only [List.head?_cons, Option.mem_def, Option.some.injEq] at hy
          rw [← hy]
          exact hb'
        · rw [if_neg hb2] at hy
          simp only [List.head?_cons, Option.mem_def, Option.some.injEq] at hy
          rw [← hy]
          exact (List.chain'_cons.mp hc).1

theorem chain_foldl_insert (l : List ScoredPlace) :
    ∀ acc, List.Chain' (fun x y => placeBefore y x = false) acc →
      List.Chain' (fun x y => placeBefore y x = false)
        (l.foldl (fun acc p => insertPlace p acc) acc) := by
  induction l with
  | nil => intro acc h; exact h
  | cons a t ih => intro acc h; exact ih _ (chain_insertPlace h)

theorem chain_sortPlaces (l : List ScoredPlace) :
    List.Chain' (fun x y => placeBefore y x = false) (sortPlaces l) :=
  chain_foldl_insert l [] (by simp)

theorem mem_insertPlace {x p : ScoredPlace} :
    ∀ {l : List ScoredPlace}, x ∈ insertPlace p l → x = p ∨ x ∈ l := by
  intro l
  induction l with
  | nil =>
    intro h
    simp only [insertPlace, List.mem_singleton] at h
    exact Or.inl h
  | cons h t ih =>
    intro hx
    unfold insertPlace at hx
    by_cases hb : placeBefore p h = true
    · rw [if_pos hb] at hx
      rcases List.mem_cons.mp hx with rfl | hx
      · exact Or.inl rfl
      · exact Or.inr hx
    · rw [if_neg hb] at hx
      rcases List.mem_cons.mp hx with rfl | hx
      · exact Or.inr (List.mem_cons_self _ _)
      · rcases ih hx with h1 | h1
        · exact Or.inl h1
        · exact Or.inr (List.mem_cons_of_mem _ h1)

theorem mem_foldl_insert (l : List ScoredPlace) :
    ∀ {acc : List ScoredPlace} {x : ScoredPlace},
      x ∈ l.foldl (fun acc p => insertPlace p acc) acc → x ∈ acc ∨ x ∈ l := by
  induction l with
  | nil => intro acc x h; exact Or.inl h
  | cons a t ih =>
    intro acc x h
    rcases ih h with h1 | h1
    · rcases mem_insertPlace h1 with rfl | h1
      · exact Or.inr (List.mem_cons_self _ _)
      · exact Or.inl h1
    · exact Or.inr (List.mem_cons_of_mem _ h1)

theorem mem_sortPlaces {x : ScoredPlace} {l : List ScoredPlace}
    (h : x ∈ sortPlaces l) : x ∈ l := by
  rcases mem_foldl_insert l h with h1 | h1
  · cases h1
  · exact h1

/-- Claim C7: the response venue list is sorted by score descending —
each venue outranks its successor, meaning either its score exceeds the
successor's by more than the 1e-9 epsilon, or the scores are within the
epsilon of each other and its distance is no larger (near-ties break by
ascending distance); the list's length is at most the requested
max-result count; and every returned venue is an input venue with the
internal score field stripped. -/
theorem response_sorted_capped_stripped (l : List ScoredPlace) (maxN : ℕ) :
    (capResults l maxN).length ≤ maxN ∧
    List.Chain' rankedAbove ((sortPlaces l).take maxN) ∧
    ∀ q ∈ capResults l maxN, ∃ p, p ∈ l ∧ q = stripScore p := by
  refine ⟨?_, ?_, ?_⟩
  · rw [capResults, List.length_map]
    exact List.length_take_le _ _
  · exact List.Chain'.imp (fun x y h => placeBefore_false_iff.mp h)
      ((chain_sortPlaces l).take maxN)
  · intro q hq
    rw [capResults] at hq
    obtain ⟨p, hp, rfl⟩ := List.mem_map.mp hq
    exact ⟨p, mem_sortPlaces (List.mem_of_mem_take hp), rfl⟩

/-- Claim C7 witness: the statement at the spec's tie-break scenario —
two venues with identical scores at 1.2 km and 3.4 km; the 1.2 km venue
sorts first and scores are stripped from the output. -/
theorem response_sorted_capped_stripped_witness :
    (capResults [ScoredPlace.mk (some "far") "F" none (some (17 / 5)) 3,
        ScoredPlace.mk (some "near") "N" none (some (6 / 5)) 3] 2).length ≤ 2 ∧
    List.Chain' rankedAbove
      ((sortPlaces [ScoredPlace.mk (some "far") "F" none (some (17 / 5)) 3,
        ScoredPlace.mk (some "near") "N" none (some (6 / 5)) 3]).take 2) ∧
    capResults [ScoredPlace.mk (some "far") "F" none (some (17 / 5)) 3,
        ScoredPlace.mk (some "near") "N" none (some (6 / 5)) 3] 2 =
      [OutPlace.mk (some "near") "N" none (some (6 / 5)),
       OutPlace.mk (some "far") "F" none (some (17 / 5))] :=
  ⟨(response_sorted_capped_stripped
      [ScoredPlace.mk (some "far") "F" none (some (17 / 5)) 3,
       ScoredPlace.mk (some "near") "N" none (some (6 / 5)) 3] 2).1,
   (response_sorted_capped_stripped
      [ScoredPlace.mk (some "far") "F" none (some (17 / 5)) 3,
       ScoredPlace.mk (some "near") "N" none (some (6 / 5)) 3] 2).2.1,
   by norm_num [capResults, sortPlaces, insertPlace, placeBefore, scoreOf, distOf, eps,
     stripScore]⟩

end FoodItinerary
